import Mathlib

/-!
Shallow embedding of the PS/2-to-USB converter's scan-code decoder and key
matrix (`converter/ps2_usb/matrix.c`), together with proofs of the spec's
testable properties about it.

The matrix is an array of `MATRIX_ROWS` 8-bit rows; the decoder is the
`static enum` state machine inside `matrix_scan`.  External collaborators
(the PS/2 transport, `clear_keyboard`, LED sync, debug printing) are modelled
at their interface boundary: the received byte and the `ps2_error` flag are
inputs of one tick, and the number of `clear_keyboard` invocations performed
during the tick is an output.
-/

namespace PS2

/-- Number of 8-bit rows of the matrix: Scan Code Set 2 is assigned into a
256-cell (32 x 8) matrix (matrix.c, comment at lines 76-99 and the array at
line 100). -/
def MATRIX_ROWS : Nat := 32

/-- `#define ROW(code) (code>>3)` (matrix.c line 101). -/
def ROW (code : Nat) : Nat := code >>> 3

/-- `#define COL(code) (code&0x07)` (matrix.c line 102). -/
def COL (code : Nat) : Nat := code &&& 0x07

/-- `#define F7 (0x83)` — matrix position of the exceptional F7 key. -/
def F7 : Nat := 0x83

/-- `#define PRINT_SCREEN (0xFC)` — matrix position of PrintScreen. -/
def PRINT_SCREEN : Nat := 0xFC

/-- `#define PAUSE (0xFE)` — matrix position of Pause. -/
def PAUSE : Nat := 0xFE

/-- The mutable state touched by `matrix_make` / `matrix_break`: the
`matrix[MATRIX_ROWS]` array (each entry one 8-bit row) and the
`is_modified` flag. -/
structure MState where
  matrix : List Nat
  is_modified : Bool
deriving DecidableEq

/-- `matrix_is_on(row, col)`: `matrix[row] & (1<<col)` (matrix.c 528-532). -/
def matrix_is_on (m : List Nat) (row col : Nat) : Bool :=
  (m.getD row 0) &&& (1 <<< col) != 0

/-- `matrix_get_row(row)`: `matrix[row]` (matrix.c 534-538). -/
def matrix_get_row (m : List Nat) (row : Nat) : Nat :=
  m.getD row 0

/-- `matrix_make(code)`: if the bit is not on, set it and raise
`is_modified` (matrix.c 550-557). -/
def matrix_make (ms : MState) (code : Nat) : MState :=
  if matrix_is_on ms.matrix (ROW code) (COL code) then ms
  else
    { matrix := ms.matrix.set (ROW code)
        ((ms.matrix.getD (ROW code) 0) ||| (1 <<< COL code)),
      is_modified := true }

/-- `matrix_break(code)`: if the bit is on, clear it and raise
`is_modified`; `matrix[row] &= ~(1<<col)` on a `uint8_t` row is masking with
`0xFF ^ (1<<col)` (matrix.c 559-566). -/
def matrix_break (ms : MState) (code : Nat) : MState :=
  if matrix_is_on ms.matrix (ROW code) (COL code) then
    { matrix := ms.matrix.set (ROW code)
        ((ms.matrix.getD (ROW code) 0) &&& (0xFF ^^^ (1 <<< COL code))),
      is_modified := true }
  else ms

/-- `matrix_clear()`: zero every row; it does not touch `is_modified`
(matrix.c 568-571). -/
def matrix_clear (ms : MState) : MState :=
  { matrix := List.replicate MATRIX_ROWS 0, is_modified := ms.is_modified }

/-- The `static enum` of scan-code reading states inside `matrix_scan`
(matrix.c 255-272). -/
inductive ScanState where
  | INIT
  | F0
  | E0
  | E0_F0
  | E1
  | E1_14
  | E1_14_77
  | E1_14_77_E1
  | E1_14_77_E1_F0
  | E1_14_77_E1_F0_14
  | E1_14_77_E1_F0_14_F0
  | E0_7E
  | E0_7E_E0
  | E0_7E_E0_F0
deriving DecidableEq

/-- Result of one `matrix_scan` tick: the new decoder state, the matrix and
`is_modified` flag afterwards, and how many times the external
`clear_keyboard` collaborator was invoked during the tick. -/
structure ScanResult where
  state : ScanState
  matrix : List Nat
  is_modified : Bool
  clear_keyboard_calls : Nat
deriving DecidableEq

/-- The big `switch (state)` of `matrix_scan` (matrix.c 285-479), applied to
one received byte with no transport error.  Returns the new state, the new
matrix state and the number of `clear_keyboard` invocations.  `matrix_clear`
and `clear_keyboard` always occur together in the source, so each clearing
branch reports one call. -/
def dispatch (st : ScanState) (code : Nat) (ms : MState) :
    ScanState × MState × Nat :=
  match st with
  | .INIT =>
      if code = 0xE0 then (.E0, ms, 0)
      else if code = 0xF0 then (.F0, ms, 0)
      else if code = 0xE1 then (.E1, ms, 0)
      else if code = 0x83 then (.INIT, matrix_make ms F7, 0)
      else if code = 0x84 then (.INIT, matrix_make ms PRINT_SCREEN, 0)
      else if code = 0x00 then (.INIT, matrix_clear ms, 1)
      else if code = 0xAA ∨ code = 0xFC then (.INIT, ms, 0)
      else if code < 0x80 then (.INIT, matrix_make ms code, 0)
      else (.INIT, matrix_clear ms, 1)
  | .E0 =>
      if code = 0x12 ∨ code = 0x59 then (.INIT, ms, 0)
      else if code = 0x7E then (.E0_7E, ms, 0)
      else if code = 0xF0 then (.E0_F0, ms, 0)
      else if code < 0x80 then (.INIT, matrix_make ms (code ||| 0x80), 0)
      else (.INIT, matrix_clear ms, 1)
  | .F0 =>
      if code = 0x83 then (.INIT, matrix_break ms F7, 0)
      else if code = 0x84 then (.INIT, matrix_break ms PRINT_SCREEN, 0)
      else if code = 0xF0 then (.F0, matrix_clear ms, 1)
      else if code < 0x80 then (.INIT, matrix_break ms code, 0)
      else (.INIT, matrix_clear ms, 1)
  | .E0_F0 =>
      if code = 0x12 ∨ code = 0x59 then (.INIT, ms, 0)
      else if code < 0x80 then (.INIT, matrix_break ms (code ||| 0x80), 0)
      else (.INIT, matrix_clear ms, 1)
  | .E1 => (if code = 0x14 then .E1_14 else .INIT, ms, 0)
  | .E1_14 => (if code = 0x77 then .E1_14_77 else .INIT, ms, 0)
  | .E1_14_77 => (if code = 0xE1 then .E1_14_77_E1 else .INIT, ms, 0)
  | .E1_14_77_E1 => (if code = 0xF0 then .E1_14_77_E1_F0 else .INIT, ms, 0)
  | .E1_14_77_E1_F0 =>
      (if code = 0x14 then .E1_14_77_E1_F0_14 else .INIT, ms, 0)
  | .E1_14_77_E1_F0_14 =>
      (if code = 0xF0 then .E1_14_77_E1_F0_14_F0 else .INIT, ms, 0)
  | .E1_14_77_E1_F0_14_F0 =>
      if code = 0x77 then (.INIT, matrix_make ms PAUSE, 0)
      else (.INIT, ms, 0)
  | .E0_7E => (if code = 0xE0 then .E0_7E_E0 else .INIT, ms, 0)
  | .E0_7E_E0 => (if code = 0xF0 then .E0_7E_E0_F0 else .INIT, ms, 0)
  | .E0_7E_E0_F0 =>
      if code = 0x7E then (.INIT, matrix_make ms PAUSE, 0)
      else (.INIT, ms, 0)

/-- The "pseudo break code" hack at the start of every tick (matrix.c
277-280): if the Pause position is on, break it before reading any byte. -/
def pseudo_break_step (ms : MState) : MState :=
  if matrix_is_on ms.matrix (ROW PAUSE) (COL PAUSE) then matrix_break ms PAUSE
  else ms

/-- One `matrix_scan()` tick (matrix.c 251-526): reset `is_modified`, run the
pseudo-break hack, then — only when `ps2_error` is not raised — interpret the
received byte through the state machine. -/
def matrix_scan (st : ScanState) (m : List Nat) (code : Nat)
    (ps2_error : Bool) : ScanResult :=
  if ps2_error then
    { state := st,
      matrix := (pseudo_break_step ⟨m, false⟩).matrix,
      is_modified := (pseudo_break_step ⟨m, false⟩).is_modified,
      clear_keyboard_calls := 0 }
  else
    { state := (dispatch st code (pseudo_break_step ⟨m, false⟩)).1,
      matrix := (dispatch st code (pseudo_break_step ⟨m, false⟩)).2.1.matrix,
      is_modified := (dispatch st code (pseudo_break_step ⟨m, false⟩)).2.1.is_modified,
      clear_keyboard_calls := (dispatch st code (pseudo_break_step ⟨m, false⟩)).2.2 }

/-- Modelled from the spec: "`count_set_bits` sums the population count
across all rows".  The `bitpop` helper lives in `util.h`/`util.c`, which is
not under `src/`; population count of one 8-bit row. -/
def bitpop (bits : Nat) : Nat :=
  (List.range 8).foldl (fun c i => c + ((bits >>> i) &&& 1)) 0

/-- `matrix_key_count()`: sum `bitpop(matrix[i])` over the rows
(matrix.c 540-547). -/
def matrix_key_count (m : List Nat) : Nat :=
  (List.range MATRIX_ROWS).foldl (fun count i => count + bitpop (m.getD i 0)) 0

/-- Deliver a list of bytes, one per `matrix_scan` tick, with no transport
error; returns the final decoder state and matrix. -/
def run (st : ScanState) (m : List Nat) (bytes : List Nat) :
    ScanState × List Nat :=
  match bytes with
  | [] => (st, m)
  | b :: rest =>
      let r := matrix_scan st m b false
      run r.state r.matrix rest

/-- The eight bytes of the Pause make sequence `E1 14 77 E1 F0 14 F0 77`
(matrix.c comment at lines 240-249). -/
def pauseSeq : List Nat := [0xE1, 0x14, 0x77, 0xE1, 0xF0, 0x14, 0xF0, 0x77]

/-- Well-formedness of the matrix array: `MATRIX_ROWS` rows, each an 8-bit
value, exactly as the C declaration `static uint8_t matrix[MATRIX_ROWS]`
guarantees. -/
def wf (m : List Nat) : Prop :=
  m.length = MATRIX_ROWS ∧ ∀ x ∈ m, x < 256

instance (m : List Nat) : Decidable (wf m) := by
  unfold wf; infer_instance

/-! ### Basic facts about the matrix accessors -/

theorem is_on_eq_testBit (m : List Nat) (r c : Nat) :
    matrix_is_on m r c = (m.getD r 0).testBit c := by
  unfold matrix_is_on
  rw [Nat.one_shiftLeft, Nat.and_two_pow]
  cases h : (m.getD r 0).testBit c <;> simp [h]

theorem getD_set_self {l : List Nat} {i : Nat} (h : i < l.length) (a d : Nat) :
    (l.set i a).getD i d = a := by
  simp [List.getD_eq_getElem?_getD, List.getElem?_set_self h]

theorem getD_set_ne {l : List Nat} {i j : Nat} (h : i ≠ j) (a d : Nat) :
    (l.set i a).getD j d = l.getD j d := by
  simp [List.getD_eq_getElem?_getD, List.getElem?_set_ne h]

theorem COL_lt_eight (code : Nat) : COL code < 8 := by
  have h7 : (7 : Nat) < 2 ^ 3 := by decide
  simpa [COL] using Nat.and_lt_two_pow code h7

theorem ROW_lt_rows {code : Nat} (h : code < 256) : ROW code < MATRIX_ROWS := by
  have : code >>> 3 = code / 8 := Nat.shiftRight_eq_div_pow code 3
  unfold ROW MATRIX_ROWS
  omega

theorem mask_testBit_self {c : Nat} (h : c < 8) :
    (0xFF ^^^ (1 <<< c)).testBit c = false := by
  rw [Nat.one_shiftLeft, Nat.testBit_xor, Nat.testBit_two_pow_self]
  have : (0xFF : Nat) = 2 ^ 8 - 1 := by decide
  rw [this, Nat.testBit_two_pow_sub_one]
  simp [h]

theorem mask_testBit_ne {c c' : Nat} (h : c ≠ c') (h' : c' < 8) :
    (0xFF ^^^ (1 <<< c)).testBit c' = true := by
  rw [Nat.one_shiftLeft, Nat.testBit_xor, Nat.testBit_two_pow_of_ne h]
  have h255 : (0xFF : Nat) = 2 ^ 8 - 1 := by decide
  rw [h255, Nat.testBit_two_pow_sub_one]
  simp [h']

/-! ### How `matrix_make` / `matrix_break` act on individual bits -/

theorem is_on_make_self (ms : MState) (code : Nat)
    (h : ROW code < ms.matrix.length) :
    matrix_is_on (matrix_make ms code).matrix (ROW code) (COL code) = true := by
  cases hon : matrix_is_on ms.matrix (ROW code) (COL code) with
  | true => simp [matrix_make, hon]
  | false =>
      simp only [matrix_make, hon, Bool.false_eq_true, if_false]
      rw [is_on_eq_testBit, getD_set_self h, Nat.testBit_or, Nat.one_shiftLeft,
        Nat.testBit_two_pow_self, Bool.or_true]

theorem is_on_make_of_ne (ms : MState) (code r c : Nat)
    (h : ROW code ≠ r ∨ COL code ≠ c) :
    matrix_is_on (matrix_make ms code).matrix r c = matrix_is_on ms.matrix r c := by
  cases hon : matrix_is_on ms.matrix (ROW code) (COL code) with
  | true => simp [matrix_make, hon]
  | false =>
      simp only [matrix_make, hon, Bool.false_eq_true, if_false]
      rcases h with h | h
      · rw [is_on_eq_testBit, is_on_eq_testBit, getD_set_ne h]
      · by_cases hr : ROW code = r
        · subst hr
          by_cases hlen : ROW code < ms.matrix.length
          · rw [is_on_eq_testBit, is_on_eq_testBit, getD_set_self hlen,
              Nat.testBit_or, Nat.one_shiftLeft, Nat.testBit_two_pow_of_ne h]
            simp
          · rw [List.set_eq_of_length_le (by omega)]
        · rw [is_on_eq_testBit, is_on_eq_testBit, getD_set_ne hr]

theorem is_on_break_self (ms : MState) (code : Nat)
    (h : ROW code < ms.matrix.length) :
    matrix_is_on (matrix_break ms code).matrix (ROW code) (COL code) = false := by
  cases hon : matrix_is_on ms.matrix (ROW code) (COL code) with
  | true =>
      simp only [matrix_break, hon, if_true]
      rw [is_on_eq_testBit]
      show ((ms.matrix.set (ROW code) _).getD (ROW code) 0).testBit (COL code) = false
      rw [getD_set_self h, Nat.testBit_and, mask_testBit_self (COL_lt_eight code)]
      simp
  | false => simp [matrix_break, hon]

theorem is_on_break_of_ne (ms : MState) (code r c : Nat) (hc : c < 8)
    (h : ROW code ≠ r ∨ COL code ≠ c) :
    matrix_is_on (matrix_break ms code).matrix r c = matrix_is_on ms.matrix r c := by
  cases hon : matrix_is_on ms.matrix (ROW code) (COL code) with
  | true =>
      simp only [matrix_break, hon, if_true]
      rcases h with h | h
      · rw [is_on_eq_testBit, is_on_eq_testBit, getD_set_ne h]
      · by_cases hr : ROW code = r
        · subst hr
          by_cases hlen : ROW code < ms.matrix.length
          · rw [is_on_eq_testBit, is_on_eq_testBit, getD_set_self hlen,
              Nat.testBit_and, mask_testBit_ne h hc]
            simp
          · rw [List.set_eq_of_length_le (by omega)]
        · rw [is_on_eq_testBit, is_on_eq_testBit, getD_set_ne hr]
  | false => simp [matrix_break, hon]

/-! ### Lengths, well-formedness preservation, and the modified flag -/

theorem make_matrix_length (ms : MState) (code : Nat) :
    (matrix_make ms code).matrix.length = ms.matrix.length := by
  unfold matrix_make; split <;> simp

theorem break_matrix_length (ms : MState) (code : Nat) :
    (matrix_break ms code).matrix.length = ms.matrix.length := by
  unfold matrix_break; split <;> simp

theorem getD_lt_256 {m : List Nat} (h : ∀ x ∈ m, x < 256) (i : Nat) :
    m.getD i 0 < 256 := by
  by_cases hi : i < m.length
  · have hg : m.getD i 0 = m[i] := by
      simp [List.getD_eq_getElem?_getD, List.getElem?_eq_getElem hi]
    rw [hg]
    exact h _ (List.getElem_mem hi)
  · rw [List.getD_eq_getElem?_getD, List.getElem?_eq_none (by omega)]
    decide

theorem or_lt_256 {x y : Nat} (hx : x < 256) (hy : y < 256) : x ||| y < 256 := by
  have e : (256 : Nat) = 2 ^ 8 := by decide
  rw [e] at hx hy ⊢
  exact Nat.or_lt_two_pow hx hy

theorem wf_make {ms : MState} (h : wf ms.matrix) (code : Nat) :
    wf (matrix_make ms code).matrix := by
  obtain ⟨hlen, hbound⟩ := h
  unfold matrix_make
  split
  · exact ⟨hlen, hbound⟩
  · refine ⟨by simpa using hlen, ?_⟩
    intro x hx
    rcases List.mem_or_eq_of_mem_set hx with hx | rfl
    · exact hbound x hx
    · refine or_lt_256 (getD_lt_256 hbound _) ?_
      rw [Nat.one_shiftLeft]
      have hc := COL_lt_eight code
      calc 2 ^ COL code ≤ 2 ^ 7 := Nat.pow_le_pow_right (by omega) (by omega)
        _ < 256 := by decide

theorem wf_break {ms : MState} (h : wf ms.matrix) (code : Nat) :
    wf (matrix_break ms code).matrix := by
  obtain ⟨hlen, hbound⟩ := h
  unfold matrix_break
  split
  · refine ⟨by simpa using hlen, ?_⟩
    intro x hx
    rcases List.mem_or_eq_of_mem_set hx with hx | rfl
    · exact hbound x hx
    · exact Nat.lt_of_le_of_lt Nat.and_le_left (getD_lt_256 hbound _)
  · exact ⟨hlen, hbound⟩

theorem wf_clear (ms : MState) : wf (matrix_clear ms).matrix := by
  refine ⟨by simp [matrix_clear], ?_⟩
  intro x hx
  simp only [matrix_clear, List.mem_replicate] at hx
  omega

theorem wf_pseudo {ms : MState} (h : wf ms.matrix) :
    wf (pseudo_break_step ms).matrix := by
  unfold pseudo_break_step
  split
  · exact wf_break h _
  · exact h

theorem wf_dispatch {st : ScanState} {code : Nat} {ms : MState}
    (h : wf ms.matrix) : wf (dispatch st code ms).2.1.matrix := by
  cases st <;> simp only [dispatch] <;>
    first
      | (split_ifs <;>
          first
            | exact h
            | exact wf_make h _
            | exact wf_break h _
            | exact wf_clear _)
      | exact h

theorem wf_scan {st : ScanState} {m : List Nat} {code : Nat} {err : Bool}
    (h : wf m) : wf (matrix_scan st m code err).matrix := by
  unfold matrix_scan
  cases err
  · exact wf_dispatch (wf_pseudo h)
  · exact wf_pseudo h

theorem make_flag (ms : MState) (code : Nat) :
    (matrix_make ms code).is_modified
      = (ms.is_modified || !(matrix_is_on ms.matrix (ROW code) (COL code))) := by
  unfold matrix_make
  cases hon : matrix_is_on ms.matrix (ROW code) (COL code) <;> simp [hon]

theorem break_flag (ms : MState) (code : Nat) :
    (matrix_break ms code).is_modified
      = (ms.is_modified || matrix_is_on ms.matrix (ROW code) (COL code)) := by
  unfold matrix_break
  cases hon : matrix_is_on ms.matrix (ROW code) (COL code) <;> simp [hon]

theorem clear_flag (ms : MState) :
    (matrix_clear ms).is_modified = ms.is_modified := rfl

theorem pseudo_flag (m : List Nat) (b : Bool) :
    (pseudo_break_step ⟨m, b⟩).is_modified
      = (b || matrix_is_on m (ROW PAUSE) (COL PAUSE)) := by
  unfold pseudo_break_step
  cases h : matrix_is_on m (ROW PAUSE) (COL PAUSE) <;> simp [h, break_flag]

theorem pseudo_of_off {m : List Nat} {b : Bool}
    (h : matrix_is_on m (ROW PAUSE) (COL PAUSE) = false) :
    pseudo_break_step ⟨m, b⟩ = ⟨m, b⟩ := by
  simp [pseudo_break_step, h]

theorem pseudo_pause_off {m : List Nat} (hlen : m.length = MATRIX_ROWS)
    (b : Bool) :
    matrix_is_on (pseudo_break_step ⟨m, b⟩).matrix (ROW PAUSE) (COL PAUSE)
      = false := by
  unfold pseudo_break_step
  cases h : matrix_is_on m (ROW PAUSE) (COL PAUSE)
  · simp [h]
  · simp only [h, if_true]
    refine is_on_break_self ⟨m, b⟩ PAUSE ?_
    show ROW PAUSE < m.length
    rw [hlen]
    decide

theorem dispatch_flag_true {st : ScanState} {code : Nat} {ms : MState}
    (h : ms.is_modified = true) :
    (dispatch st code ms).2.1.is_modified = true := by
  cases st <;> simp only [dispatch] <;>
    first
      | (split_ifs <;> simp [make_flag, break_flag, clear_flag, h])
      | exact h

theorem make_matrix_ne {ms : MState} {code : Nat}
    (h : ROW code < ms.matrix.length)
    (hoff : matrix_is_on ms.matrix (ROW code) (COL code) = false) :
    (matrix_make ms code).matrix ≠ ms.matrix := by
  intro heq
  have h1 := is_on_make_self ms code h
  rw [heq, hoff] at h1
  exact Bool.false_ne_true h1

theorem break_matrix_ne {ms : MState} {code : Nat}
    (h : ROW code < ms.matrix.length)
    (hon : matrix_is_on ms.matrix (ROW code) (COL code) = true) :
    (matrix_break ms code).matrix ≠ ms.matrix := by
  intro heq
  have h1 := is_on_break_self ms code h
  rw [heq, hon] at h1
  exact Bool.noConfusion h1

theorem make_of_on {ms : MState} {code : Nat}
    (hon : matrix_is_on ms.matrix (ROW code) (COL code) = true) :
    matrix_make ms code = ms := by
  simp [matrix_make, hon]

theorem break_of_off {ms : MState} {code : Nat}
    (hoff : matrix_is_on ms.matrix (ROW code) (COL code) = false) :
    matrix_break ms code = ms := by
  simp [matrix_break, hoff]

/-! ### Reducing one tick -/

theorem scan_false (st : ScanState) (m : List Nat) (code : Nat) :
    matrix_scan st m code false =
      { state := (dispatch st code (pseudo_break_step ⟨m, false⟩)).1,
        matrix := (dispatch st code (pseudo_break_step ⟨m, false⟩)).2.1.matrix,
        is_modified :=
          (dispatch st code (pseudo_break_step ⟨m, false⟩)).2.1.is_modified,
        clear_keyboard_calls :=
          (dispatch st code (pseudo_break_step ⟨m, false⟩)).2.2 } := rfl

theorem scan_true (st : ScanState) (m : List Nat) (code : Nat) :
    matrix_scan st m code true =
      { state := st,
        matrix := (pseudo_break_step ⟨m, false⟩).matrix,
        is_modified := (pseudo_break_step ⟨m, false⟩).is_modified,
        clear_keyboard_calls := 0 } := rfl

theorem run_nil (st : ScanState) (m : List Nat) : run st m [] = (st, m) := rfl

theorem run_cons (st : ScanState) (m : List Nat) (b : Nat) (bs : List Nat) :
    run st m (b :: bs) =
      run (matrix_scan st m b false).state (matrix_scan st m b false).matrix
        bs := rfl

theorem ROW_lt_16 {c : Nat} (h : c < 0x80) : ROW c < 16 := by
  have : c >>> 3 = c / 8 := Nat.shiftRight_eq_div_pow c 3
  unfold ROW
  omega

theorem ROW_PAUSE_eq : ROW PAUSE = 31 := by decide

/-- In `INIT` state, any non-reserved byte below `0x80` is a plain make. -/
theorem dispatch_INIT_plain {c : Nat} (h : c < 0x80) (h0 : c ≠ 0)
    (ms : MState) : dispatch .INIT c ms = (.INIT, matrix_make ms c, 0) := by
  have h1 : c ≠ 0xE0 := by omega
  have h2 : c ≠ 0xF0 := by omega
  have h3 : c ≠ 0xE1 := by omega
  have h4 : c ≠ 0x83 := by omega
  have h5 : c ≠ 0x84 := by omega
  have h6 : ¬(c = 0xAA ∨ c = 0xFC) := by omega
  simp [dispatch, h, h0, h1, h2, h3, h4, h5, h6]

/-- In `F0` state, any byte below `0x80` is a plain break. -/
theorem dispatch_F0_plain {c : Nat} (h : c < 0x80) (ms : MState) :
    dispatch .F0 c ms = (.INIT, matrix_break ms c, 0) := by
  have h1 : c ≠ 0x83 := by omega
  have h2 : c ≠ 0x84 := by omega
  have h3 : c ≠ 0xF0 := by omega
  simp [dispatch, h, h1, h2, h3]

/-- In `E0` state, a byte below `0x80` other than `0x12`, `0x59`, `0x7E` is
an extended make. -/
theorem dispatch_E0_plain {c : Nat} (h : c < 0x80) (h1 : c ≠ 0x12)
    (h2 : c ≠ 0x59) (h3 : c ≠ 0x7E) (ms : MState) :
    dispatch .E0 c ms = (.INIT, matrix_make ms (c ||| 0x80), 0) := by
  have h4 : ¬(c = 0x12 ∨ c = 0x59) := by omega
  have h5 : c ≠ 0xF0 := by omega
  simp [dispatch, h, h3, h4, h5]

/-- In `E0_F0` state, a byte below `0x80` other than `0x12`, `0x59` is an
extended break. -/
theorem dispatch_E0_F0_plain {c : Nat} (h : c < 0x80) (h1 : c ≠ 0x12)
    (h2 : c ≠ 0x59) (ms : MState) :
    dispatch .E0_F0 c ms = (.INIT, matrix_break ms (c ||| 0x80), 0) := by
  have h4 : ¬(c = 0x12 ∨ c = 0x59) := by omega
  simp [dispatch, h, h4]

/-- In `INIT` state, a byte ≥ `0x80` other than the specially handled ones
is a protocol violation: matrix cleared, one `clear_keyboard`, back to
`INIT`. -/
theorem dispatch_INIT_violation {b : Nat} (hb : ¬ b < 0x80) (h1 : b ≠ 0xE0)
    (h2 : b ≠ 0xF0) (h3 : b ≠ 0xE1) (h4 : b ≠ 0x83) (h5 : b ≠ 0x84)
    (h6 : b ≠ 0xAA) (h7 : b ≠ 0xFC) (ms : MState) :
    dispatch .INIT b ms = (.INIT, matrix_clear ms, 1) := by
  have h0 : b ≠ 0 := by omega
  have h8 : ¬(b = 0xAA ∨ b = 0xFC) := by
    rintro (rfl | rfl) <;> simp_all
  simp [dispatch, hb, h0, h1, h2, h3, h4, h5, h8]

/-- In `F0` state, a byte ≥ `0x80` other than `0x83`, `0x84`, `0xF0` is a
protocol violation. -/
theorem dispatch_F0_violation {b : Nat} (hb : ¬ b < 0x80) (h1 : b ≠ 0x83)
    (h2 : b ≠ 0x84) (h3 : b ≠ 0xF0) (ms : MState) :
    dispatch .F0 b ms = (.INIT, matrix_clear ms, 1) := by
  simp [dispatch, hb, h1, h2, h3]

/-- In `E0_F0` state, every byte ≥ `0x80` is a protocol violation. -/
theorem dispatch_E0_F0_violation {b : Nat} (hb : ¬ b < 0x80) (ms : MState) :
    dispatch .E0_F0 b ms = (.INIT, matrix_clear ms, 1) := by
  have h1 : ¬(b = 0x12 ∨ b = 0x59) := by omega
  simp [dispatch, hb, h1]

theorem dispatch_INIT_E0 (ms : MState) :
    dispatch .INIT 0xE0 ms = (.E0, ms, 0) := rfl

theorem dispatch_INIT_F0 (ms : MState) :
    dispatch .INIT 0xF0 ms = (.F0, ms, 0) := rfl

theorem dispatch_INIT_E1 (ms : MState) :
    dispatch .INIT 0xE1 ms = (.E1, ms, 0) := rfl

theorem dispatch_E0_0xF0 (ms : MState) :
    dispatch .E0 0xF0 ms = (.E0_F0, ms, 0) := rfl

theorem dispatch_E1_0x14 (ms : MState) :
    dispatch .E1 0x14 ms = (.E1_14, ms, 0) := rfl

theorem dispatch_E1_14_0x77 (ms : MState) :
    dispatch .E1_14 0x77 ms = (.E1_14_77, ms, 0) := rfl

theorem dispatch_E1_14_77_0xE1 (ms : MState) :
    dispatch .E1_14_77 0xE1 ms = (.E1_14_77_E1, ms, 0) := rfl

theorem dispatch_E1_14_77_E1_0xF0 (ms : MState) :
    dispatch .E1_14_77_E1 0xF0 ms = (.E1_14_77_E1_F0, ms, 0) := rfl

theorem dispatch_E1_14_77_E1_F0_0x14 (ms : MState) :
    dispatch .E1_14_77_E1_F0 0x14 ms = (.E1_14_77_E1_F0_14, ms, 0) := rfl

theorem dispatch_E1_14_77_E1_F0_14_0xF0 (ms : MState) :
    dispatch .E1_14_77_E1_F0_14 0xF0 ms
      = (.E1_14_77_E1_F0_14_F0, ms, 0) := rfl

theorem dispatch_pause_final (ms : MState) :
    dispatch .E1_14_77_E1_F0_14_F0 0x77 ms
      = (.INIT, matrix_make ms PAUSE, 0) := rfl

/-- Every (8-bit) value is recovered from its matrix coordinate. -/
theorem eq_row_add_col (x : Nat) : x = 8 * ROW x + COL x := by
  have hr : ROW x = x / 8 := Nat.shiftRight_eq_div_pow x 3
  have hc : COL x = x % 8 := by
    have : (0x07 : Nat) = 2 ^ 3 - 1 := by decide
    unfold COL
    rw [this, Nat.and_pow_two_sub_one_eq_mod]
  omega

/-- A code other than `PAUSE` lives at a different matrix coordinate. -/
theorem coord_ne_pause {x : Nat} (h : x ≠ PAUSE) :
    ROW x ≠ ROW PAUSE ∨ COL x ≠ COL PAUSE := by
  by_contra hcon
  push_neg at hcon
  exact h (by rw [eq_row_add_col x, hcon.1, hcon.2, ← eq_row_add_col PAUSE])

/-! ### Claims -/

/-- Claim C8 (confirmed): when the transport signals an error alongside the
received byte, the byte is not interpreted: the decoder state is unchanged,
`clear_keyboard` is never invoked, and the matrix is exactly what the
start-of-tick pseudo-break leaves — no make/break event or clear arising
from byte interpretation occurs. -/
theorem C8_transport_error_discards (st : ScanState) (m : List Nat)
    (code : Nat) :
    (matrix_scan st m code true).state = st ∧
    (matrix_scan st m code true).clear_keyboard_calls = 0 ∧
    (matrix_scan st m code true).matrix
      = (pseudo_break_step ⟨m, false⟩).matrix :=
  ⟨rfl, rfl, rfl⟩

/-- Claim C9 (confirmed): for every 8-bit code the derived row `code>>3` is
below `MATRIX_ROWS = 32`, its column is below 8, and `matrix_make` /
`matrix_break` keep the matrix exactly `MATRIX_ROWS` rows long — no access
is out of bounds. -/
theorem C9_coordinates_in_bounds (code : Nat) (ms : MState)
    (h : code < 256) (hms : ms.matrix.length = MATRIX_ROWS) :
    ROW code < MATRIX_ROWS ∧ COL code < 8 ∧ ROW code < ms.matrix.length ∧
    (matrix_make ms code).matrix.length = MATRIX_ROWS ∧
    (matrix_break ms code).matrix.length = MATRIX_ROWS := by
  refine ⟨ROW_lt_rows h, COL_lt_eight code, ?_, ?_, ?_⟩
  · rw [hms]; exact ROW_lt_rows h
  · rw [make_matrix_length, hms]
  · rw [break_matrix_length, hms]

theorem C9_witness :
    ROW 255 < MATRIX_ROWS ∧ COL 255 < 8 ∧
    ROW 255 < (List.replicate 32 0).length ∧
    (matrix_make ⟨List.replicate 32 0, false⟩ 255).matrix.length
      = MATRIX_ROWS ∧
    (matrix_break ⟨List.replicate 32 0, false⟩ 255).matrix.length
      = MATRIX_ROWS :=
  C9_coordinates_in_bounds 255 ⟨List.replicate 32 0, false⟩ (by decide)
    (by decide)

/-- Claim C1 counterexample: `0xE0` is a byte ≥ `0x80`, yet delivering it in
idle state with a non-empty matrix clears nothing, never invokes
`clear_keyboard`, and leaves the decoder in the `E0` state rather than
idle. -/
theorem C1_counterexample :
    0x80 ≤ 0xE0 ∧
    (matrix_scan .INIT (2 :: List.replicate 31 0) 0xE0 false).state ≠ .INIT ∧
    (matrix_scan .INIT (2 :: List.replicate 31 0) 0xE0 false).clear_keyboard_calls = 0 ∧
    (matrix_scan .INIT (2 :: List.replicate 31 0) 0xE0 false).matrix
      ≠ List.replicate 32 0 ∧
    matrix_is_on
      (matrix_scan .INIT (2 :: List.replicate 31 0) 0xE0 false).matrix 0 1
      = true := by
  decide

/-- Claim C1 (amended): delivering a byte ≥ `0x80` in the
extended-break-prefix state always — and in the idle state when the byte is
none of the specially handled `0xE0 0xF0 0xE1 0x83 0x84 0xAA 0xFC`, and in
the break-prefix state when it is none of `0x83 0x84 0xF0` — clears every
bit of the matrix, invokes `clear_keyboard` exactly once, and leaves the
decoder in the idle state. -/
theorem C1_amended (st : ScanState) (m : List Nat) (b : Nat)
    (hb : 0x80 ≤ b)
    (hcase :
      (st = .INIT ∧ b ≠ 0xE0 ∧ b ≠ 0xF0 ∧ b ≠ 0xE1 ∧ b ≠ 0x83 ∧ b ≠ 0x84 ∧
        b ≠ 0xAA ∧ b ≠ 0xFC) ∨
      (st = .F0 ∧ b ≠ 0x83 ∧ b ≠ 0x84 ∧ b ≠ 0xF0) ∨
      st = .E0_F0) :
    (matrix_scan st m b false).matrix = List.replicate MATRIX_ROWS 0 ∧
    (matrix_scan st m b false).clear_keyboard_calls = 1 ∧
    (matrix_scan st m b false).state = .INIT := by
  have hnb : ¬ b < 0x80 := by omega
  rcases hcase with ⟨rfl, h1, h2, h3, h4, h5, h6, h7⟩ | ⟨rfl, h1, h2, h3⟩ | rfl
  · rw [scan_false, dispatch_INIT_violation hnb h1 h2 h3 h4 h5 h6 h7]
    exact ⟨rfl, rfl, rfl⟩
  · rw [scan_false, dispatch_F0_violation hnb h1 h2 h3]
    exact ⟨rfl, rfl, rfl⟩
  · rw [scan_false, dispatch_E0_F0_violation hnb]
    exact ⟨rfl, rfl, rfl⟩

theorem C1_witness :
    0x80 ≤ 0x80 ∧
    ((matrix_scan .INIT (2 :: List.replicate 31 0) 0x80 false).matrix
        = List.replicate MATRIX_ROWS 0 ∧
     (matrix_scan .INIT (2 :: List.replicate 31 0) 0x80 false).clear_keyboard_calls = 1 ∧
     (matrix_scan .INIT (2 :: List.replicate 31 0) 0x80 false).state
        = .INIT) :=
  ⟨by decide,
    C1_amended .INIT (2 :: List.replicate 31 0) 0x80 (by decide)
      (Or.inl ⟨rfl, by decide, by decide, by decide, by decide, by decide,
        by decide, by decide⟩)⟩

/-- Claim C6 (confirmed): `matrix_make` and `matrix_break` are idempotent on
every matrix state, and delivering the identical plain make byte twice in a
row with no intervening break leaves the matrix identical to delivering it
once. -/
theorem C6_make_break_idempotent :
    (∀ (ms : MState) (code : Nat),
        matrix_make (matrix_make ms code) code = matrix_make ms code) ∧
    (∀ (ms : MState) (code : Nat),
        matrix_break (matrix_break ms code) code = matrix_break ms code) ∧
    (∀ (m : List Nat) (c : Nat), wf m → c < 0x80 → c ≠ 0 →
        (run .INIT m [c, c]).2 = (run .INIT m [c]).2) := by
  refine ⟨?_, ?_, ?_⟩
  · intro ms code
    cases hon : matrix_is_on ms.matrix (ROW code) (COL code) with
    | false =>
        by_cases hlen : ROW code < ms.matrix.length
        · exact make_of_on (is_on_make_self ms code hlen)
        · simp [matrix_make, hon,
            List.set_eq_of_length_le (show ms.matrix.length ≤ ROW code by
              omega)]
    | true => rw [make_of_on hon, make_of_on hon]
  · intro ms code
    cases hon : matrix_is_on ms.matrix (ROW code) (COL code) with
    | false => rw [break_of_off hon, break_of_off hon]
    | true =>
        by_cases hlen : ROW code < ms.matrix.length
        · exact break_of_off (is_on_break_self ms code hlen)
        · simp [matrix_break, hon,
            List.set_eq_of_length_le (show ms.matrix.length ≤ ROW code by
              omega)]
  · intro m c hwf hlt h0
    have e1 : matrix_scan .INIT m c false =
        ⟨.INIT, (matrix_make (pseudo_break_step ⟨m, false⟩) c).matrix,
          (matrix_make (pseudo_break_step ⟨m, false⟩) c).is_modified, 0⟩ := by
      rw [scan_false, dispatch_INIT_plain hlt h0]
    have hwf1 : wf (pseudo_break_step ⟨m, false⟩).matrix :=
      @wf_pseudo ⟨m, false⟩ hwf
    have hrowlt : ROW c < (pseudo_break_step ⟨m, false⟩).matrix.length := by
      rw [hwf1.1]
      have := ROW_lt_16 hlt
      unfold MATRIX_ROWS
      omega
    have hpM1 : matrix_is_on
        (matrix_make (pseudo_break_step ⟨m, false⟩) c).matrix
        (ROW PAUSE) (COL PAUSE) = false := by
      rw [is_on_make_of_ne]
      · exact pseudo_pause_off hwf.1 false
      · left
        have := ROW_lt_16 hlt
        rw [ROW_PAUSE_eq]
        omega
    have hon1 : matrix_is_on
        (matrix_make (pseudo_break_step ⟨m, false⟩) c).matrix
        (ROW c) (COL c) = true :=
      is_on_make_self (pseudo_break_step ⟨m, false⟩) c hrowlt
    have e2 : matrix_scan .INIT
        (matrix_make (pseudo_break_step ⟨m, false⟩) c).matrix c false =
        ⟨.INIT, (matrix_make (pseudo_break_step ⟨m, false⟩) c).matrix,
          false, 0⟩ := by
      rw [scan_false, pseudo_of_off hpM1, dispatch_INIT_plain hlt h0,
        @make_of_on ⟨(matrix_make (pseudo_break_step ⟨m, false⟩) c).matrix,
          false⟩ c hon1]
    rw [run_cons, run_cons, run_nil, run_cons, run_nil, e1]
    show (matrix_scan .INIT
        (matrix_make (pseudo_break_step ⟨m, false⟩) c).matrix c false).matrix
      = (matrix_make (pseudo_break_step ⟨m, false⟩) c).matrix
    rw [e2]

theorem C6_witness :
    (matrix_make (matrix_make ⟨List.replicate 32 0, false⟩ 0x1C) 0x1C
      = matrix_make ⟨List.replicate 32 0, false⟩ 0x1C) ∧
    (matrix_break (matrix_break ⟨List.replicate 32 5, false⟩ 0x1C) 0x1C
      = matrix_break ⟨List.replicate 32 5, false⟩ 0x1C) ∧
    (run .INIT (List.replicate 32 0) [0x1C, 0x1C]).2
      = (run .INIT (List.replicate 32 0) [0x1C]).2 :=
  ⟨C6_make_break_idempotent.1 ⟨List.replicate 32 0, false⟩ 0x1C,
   C6_make_break_idempotent.2.1 ⟨List.replicate 32 5, false⟩ 0x1C,
   C6_make_break_idempotent.2.2 (List.replicate 32 0) 0x1C (by decide)
     (by decide) (by decide)⟩

/-- In `INIT` state, interpreting any byte never turns the Pause position
on when it was off. -/
theorem dispatch_INIT_pause_off {ms : MState} {code : Nat}
    (hoff : matrix_is_on ms.matrix (ROW PAUSE) (COL PAUSE) = false) :
    matrix_is_on (dispatch .INIT code ms).2.1.matrix (ROW PAUSE) (COL PAUSE)
      = false := by
  simp only [dispatch]
  split_ifs with h1 h2 h3 h4 h5 h6 h7 h8
  · exact hoff
  · exact hoff
  · exact hoff
  · rw [is_on_make_of_ne _ _ _ _ (coord_ne_pause (by decide))]
    exact hoff
  · rw [is_on_make_of_ne _ _ _ _ (coord_ne_pause (by decide))]
    exact hoff
  · show matrix_is_on (List.replicate MATRIX_ROWS 0) (ROW PAUSE) (COL PAUSE)
      = false
    decide
  · exact hoff
  · rw [is_on_make_of_ne _ _ _ _ (Or.inl (by
      have := ROW_lt_16 h8
      rw [ROW_PAUSE_eq]
      omega))]
    exact hoff
  · show matrix_is_on (List.replicate MATRIX_ROWS 0) (ROW PAUSE) (COL PAUSE)
      = false
    decide

/-- After any tick taken from `INIT` state the Pause position is off:
either the pseudo-break has just cleared it, or the interpreted byte could
not have set it. -/
theorem scan_INIT_pause_off {m : List Nat} (code : Nat) (err : Bool)
    (h : wf m) :
    matrix_is_on (matrix_scan .INIT m code err).matrix (ROW PAUSE)
      (COL PAUSE) = false := by
  cases err
  · rw [scan_false]
    exact dispatch_INIT_pause_off (pseudo_pause_off h.1 false)
  · rw [scan_true]
    exact pseudo_pause_off h.1 false

/-- Claim C2 (confirmed): after the eight bytes of the Pause make sequence
`E1 14 77 E1 F0 14 F0 77`, the Pause coordinate `(0xFE>>3, 0xFE&7)` reads
pressed; on the very next `matrix_scan` tick it is already cleared by the
start-of-tick pseudo-break — before any byte is interpreted — and the tick
leaves it released whatever byte arrives and whether or not the transport
reports an error. -/
theorem C2_pause_one_tick_pulse (m : List Nat) (code : Nat) (err : Bool)
    (hwf : wf m) :
    (run .INIT m pauseSeq).1 = .INIT ∧
    matrix_is_on (run .INIT m pauseSeq).2 (ROW PAUSE) (COL PAUSE) = true ∧
    matrix_is_on (pseudo_break_step ⟨(run .INIT m pauseSeq).2, false⟩).matrix
      (ROW PAUSE) (COL PAUSE) = false ∧
    matrix_is_on (matrix_scan .INIT (run .INIT m pauseSeq).2 code err).matrix
      (ROW PAUSE) (COL PAUSE) = false := by
  have hwfP : wf (pseudo_break_step ⟨m, false⟩).matrix :=
    @wf_pseudo ⟨m, false⟩ hwf
  have hpP : matrix_is_on (pseudo_break_step ⟨m, false⟩).matrix (ROW PAUSE)
      (COL PAUSE) = false := pseudo_pause_off hwf.1 false
  have e1 : matrix_scan .INIT m 0xE1 false =
      ⟨.E1, (pseudo_break_step ⟨m, false⟩).matrix,
        (pseudo_break_step ⟨m, false⟩).is_modified, 0⟩ := by
    rw [scan_false, dispatch_INIT_E1]
  have e2 : matrix_scan .E1 (pseudo_break_step ⟨m, false⟩).matrix 0x14
      false =
      ⟨.E1_14, (pseudo_break_step ⟨m, false⟩).matrix, false, 0⟩ := by
    rw [scan_false, pseudo_of_off hpP, dispatch_E1_0x14]
  have e3 : matrix_scan .E1_14 (pseudo_break_step ⟨m, false⟩).matrix 0x77
      false =
      ⟨.E1_14_77, (pseudo_break_step ⟨m, false⟩).matrix, false, 0⟩ := by
    rw [scan_false, pseudo_of_off hpP, dispatch_E1_14_0x77]
  have e4 : matrix_scan .E1_14_77 (pseudo_break_step ⟨m, false⟩).matrix 0xE1
      false =
      ⟨.E1_14_77_E1, (pseudo_break_step ⟨m, false⟩).matrix, false, 0⟩ := by
    rw [scan_false, pseudo_of_off hpP, dispatch_E1_14_77_0xE1]
  have e5 : matrix_scan .E1_14_77_E1 (pseudo_break_step ⟨m, false⟩).matrix
      0xF0 false =
      ⟨.E1_14_77_E1_F0, (pseudo_break_step ⟨m, false⟩).matrix, false, 0⟩ := by
    rw [scan_false, pseudo_of_off hpP, dispatch_E1_14_77_E1_0xF0]
  have e6 : matrix_scan .E1_14_77_E1_F0
      (pseudo_break_step ⟨m, false⟩).matrix 0x14 false =
      ⟨.E1_14_77_E1_F0_14, (pseudo_break_step ⟨m, false⟩).matrix,
        false, 0⟩ := by
    rw [scan_false, pseudo_of_off hpP, dispatch_E1_14_77_E1_F0_0x14]
  have e7 : matrix_scan .E1_14_77_E1_F0_14
      (pseudo_break_step ⟨m, false⟩).matrix 0xF0 false =
      ⟨.E1_14_77_E1_F0_14_F0, (pseudo_break_step ⟨m, false⟩).matrix,
        false, 0⟩ := by
    rw [scan_false, pseudo_of_off hpP, dispatch_E1_14_77_E1_F0_14_0xF0]
  have e8 : matrix_scan .E1_14_77_E1_F0_14_F0
      (pseudo_break_step ⟨m, false⟩).matrix 0x77 false =
      ⟨.INIT,
        (matrix_make ⟨(pseudo_break_step ⟨m, false⟩).matrix, false⟩
          PAUSE).matrix,
        (matrix_make ⟨(pseudo_break_step ⟨m, false⟩).matrix, false⟩
          PAUSE).is_modified, 0⟩ := by
    rw [scan_false, pseudo_of_off hpP, dispatch_pause_final]
  have hrun : run .INIT m pauseSeq =
      (.INIT,
        (matrix_make ⟨(pseudo_break_step ⟨m, false⟩).matrix, false⟩
          PAUSE).matrix) := by
    simp only [pauseSeq, run_cons, run_nil, e1, e2, e3, e4, e5, e6, e7, e8]
  have hwf8 : wf (matrix_make ⟨(pseudo_break_step ⟨m, false⟩).matrix, false⟩
      PAUSE).matrix :=
    @wf_make ⟨(pseudo_break_step ⟨m, false⟩).matrix, false⟩ hwfP PAUSE
  refine ⟨by rw [hrun], ?_, ?_, ?_⟩
  · rw [hrun]
    refine is_on_make_self _ _ ?_
    show ROW PAUSE < (pseudo_break_step ⟨m, false⟩).matrix.length
    rw [hwfP.1, ROW_PAUSE_eq]
    decide
  · rw [hrun]
    exact pseudo_pause_off hwf8.1 false
  · rw [hrun]
    exact scan_INIT_pause_off code err hwf8

theorem C2_witness :
    wf (List.replicate 32 0) ∧
    ((run .INIT (List.replicate 32 0) pauseSeq).1 = .INIT ∧
     matrix_is_on (run .INIT (List.replicate 32 0) pauseSeq).2 (ROW PAUSE)
       (COL PAUSE) = true ∧
     matrix_is_on (pseudo_break_step
       ⟨(run .INIT (List.replicate 32 0) pauseSeq).2, false⟩).matrix
       (ROW PAUSE) (COL PAUSE) = false ∧
     matrix_is_on (matrix_scan .INIT
       (run .INIT (List.replicate 32 0) pauseSeq).2 0x1C true).matrix
       (ROW PAUSE) (COL PAUSE) = false) :=
  ⟨by decide,
    C2_pause_one_tick_pulse (List.replicate 32 0) 0x1C true (by decide)⟩

theorem make_branch_char {m : List Nat} {c : Nat} (h : ROW c < m.length) :
    ((matrix_make ⟨m, false⟩ c).is_modified = true ↔
      ((0 : Nat) = 0 ∧ (matrix_make ⟨m, false⟩ c).matrix ≠ m)) := by
  cases hon : matrix_is_on m (ROW c) (COL c) with
  | false =>
      have hne := @make_matrix_ne ⟨m, false⟩ c h hon
      rw [make_flag]
      simp [hon, hne]
  | true =>
      rw [@make_of_on ⟨m, false⟩ c hon]
      simp

theorem break_branch_char {m : List Nat} {c : Nat} (h : ROW c < m.length) :
    ((matrix_break ⟨m, false⟩ c).is_modified = true ↔
      ((0 : Nat) = 0 ∧ (matrix_break ⟨m, false⟩ c).matrix ≠ m)) := by
  cases hon : matrix_is_on m (ROW c) (COL c) with
  | true =>
      have hne := @break_matrix_ne ⟨m, false⟩ c h hon
      rw [break_flag]
      simp [hon, hne]
  | false =>
      rw [@break_of_off ⟨m, false⟩ c hon]
      simp

/-- With the pseudo-break already noop (flag still false), the flag raised
by interpreting one byte is raised exactly when no clear happened and the
matrix changed. -/
theorem dispatch_flag_char (st : ScanState) (code : Nat) (m : List Nat)
    (hwf : wf m) :
    ((dispatch st code ⟨m, false⟩).2.1.is_modified = true ↔
      ((dispatch st code ⟨m, false⟩).2.2 = 0 ∧
        (dispatch st code ⟨m, false⟩).2.1.matrix ≠ m)) := by
  have h83 : ROW F7 < m.length := by rw [hwf.1]; decide
  have h84 : ROW PRINT_SCREEN < m.length := by rw [hwf.1]; decide
  have hFE : ROW PAUSE < m.length := by rw [hwf.1]; decide
  cases st
  case INIT =>
    simp only [dispatch]
    split_ifs with h1 h2 h3 h4 h5 h6 h7 h8
    · simp
    · simp
    · simp
    · exact make_branch_char h83
    · exact make_branch_char h84
    · simp [matrix_clear]
    · simp
    · refine make_branch_char ?_
      rw [hwf.1]
      have := ROW_lt_16 h8
      unfold MATRIX_ROWS
      omega
    · simp [matrix_clear]
  case E0 =>
    simp only [dispatch]
    split_ifs with h1 h2 h3 h4
    · simp
    · simp
    · simp
    · refine make_branch_char ?_
      rw [hwf.1]
      exact ROW_lt_rows (or_lt_256 (by omega) (by decide))
    · simp [matrix_clear]
  case F0 =>
    simp only [dispatch]
    split_ifs with h1 h2 h3 h4
    · exact break_branch_char h83
    · exact break_branch_char h84
    · simp [matrix_clear]
    · refine break_branch_char ?_
      rw [hwf.1]
      have := ROW_lt_16 h4
      unfold MATRIX_ROWS
      omega
    · simp [matrix_clear]
  case E0_F0 =>
    simp only [dispatch]
    split_ifs with h1 h2
    · simp
    · refine break_branch_char ?_
      rw [hwf.1]
      exact ROW_lt_rows (or_lt_256 (by omega) (by decide))
    · simp [matrix_clear]
  case E1_14_77_E1_F0_14_F0 =>
    simp only [dispatch]
    split_ifs with h1
    · exact make_branch_char hFE
    · simp
  case E0_7E_E0_F0 =>
    simp only [dispatch]
    split_ifs with h1
    · exact make_branch_char hFE
    · simp
  all_goals simp [dispatch]

/-- Claim C3 counterexample: delivering the overrun byte `0x00` in idle
with a non-empty matrix changes the matrix during the tick (it is fully
cleared), yet the modified flag ends the tick `false` — `matrix_clear` does
not raise `is_modified`. -/
theorem C3_counterexample :
    (matrix_scan .INIT (2 :: List.replicate 31 0) 0x00 false).matrix
      ≠ 2 :: List.replicate 31 0 ∧
    (matrix_scan .INIT (2 :: List.replicate 31 0) 0x00 false).is_modified
      = false := by
  decide

/-- Claim C3 (amended): at the end of a tick the modified flag is true iff
the matrix was changed by a make or break operation during the tick — that
is, iff the Pause position was on at the start of the tick (so the
pseudo-break fired) or no full matrix clear happened and the matrix
contents changed; the full clears performed on overrun or protocol
violation do not raise the flag. -/
theorem C3_modified_flag (st : ScanState) (m : List Nat) (code : Nat)
    (err : Bool) (hwf : wf m) :
    ((matrix_scan st m code err).is_modified = true ↔
      (matrix_is_on m (ROW PAUSE) (COL PAUSE) = true ∨
        ((matrix_scan st m code err).clear_keyboard_calls = 0 ∧
          (matrix_scan st m code err).matrix ≠ m))) := by
  cases hp : matrix_is_on m (ROW PAUSE) (COL PAUSE) with
  | true =>
      have hflag : (matrix_scan st m code err).is_modified = true := by
        cases err
        · rw [scan_false]
          refine dispatch_flag_true ?_
          rw [pseudo_flag]
          simp [hp]
        · rw [scan_true]
          show (pseudo_break_step ⟨m, false⟩).is_modified = true
          rw [pseudo_flag]
          simp [hp]
      rw [hflag]
      simp
  | false =>
      cases err
      · rw [scan_false, pseudo_of_off hp]
        simp only [hp, Bool.false_eq_true, false_or]
        exact dispatch_flag_char st code m hwf
      · rw [scan_true, pseudo_of_off hp]
        simp

theorem C3_witness :
    wf (List.replicate 32 0) ∧
    ((matrix_scan .INIT (List.replicate 32 0) 0x1C false).is_modified = true
      ↔ (matrix_is_on (List.replicate 32 0) (ROW PAUSE) (COL PAUSE) = true ∨
        ((matrix_scan .INIT (List.replicate 32 0) 0x1C
            false).clear_keyboard_calls = 0 ∧
          (matrix_scan .INIT (List.replicate 32 0) 0x1C false).matrix
            ≠ List.replicate 32 0))) :=
  ⟨by decide,
    C3_modified_flag .INIT (List.replicate 32 0) 0x1C false (by decide)⟩

theorem foldl_add_range (f : Nat → Nat) (n : Nat) :
    (List.range n).foldl (fun c i => c + f i) 0 = ∑ i ∈ Finset.range n, f i := by
  induction n with
  | zero => rfl
  | succ k ih =>
      rw [List.range_succ, List.foldl_append, ih, Finset.sum_range_succ]
      rfl

set_option maxRecDepth 8192 in
/-- Claim C7 (confirmed): `matrix_key_count` equals the number of
`(row, column)` coordinates for which `matrix_is_on` holds, and immediately
after `matrix_clear` it is 0. -/
theorem C7_key_count (m : List Nat) (h : wf m) :
    matrix_key_count m =
      ((Finset.range MATRIX_ROWS ×ˢ Finset.range 8).filter
        (fun p => matrix_is_on m p.1 p.2 = true)).card ∧
    matrix_key_count (matrix_clear ⟨m, false⟩).matrix = 0 := by
  constructor
  · rw [matrix_key_count, foldl_add_range, Finset.card_filter,
      Finset.sum_product]
    refine Finset.sum_congr rfl ?_
    intro r hr
    have hb := getD_lt_256 h.2 r
    have key : ∀ x, x < 256 → bitpop x =
        ∑ c ∈ Finset.range 8,
          if (x &&& (1 <<< c) != 0) = true then 1 else 0 := by decide
    rw [key _ hb]
    rfl
  · show matrix_key_count (List.replicate MATRIX_ROWS 0) = 0
    decide

/-- Claim C4 (confirmed): a non-reserved code `c < 0x80` delivered in idle
turns `is_on(c>>3, c&7)` on, and `0xF0` followed by `c` turns it off
again. -/
theorem C4_plain_make_break (m : List Nat) (c : Nat) (hwf : wf m)
    (hc : c < 0x80) (h0 : c ≠ 0) :
    (run .INIT m [c]).1 = .INIT ∧
    matrix_is_on (run .INIT m [c]).2 (ROW c) (COL c) = true ∧
    (run .INIT m [c, 0xF0]).1 = .F0 ∧
    (run .INIT m [c, 0xF0, c]).1 = .INIT ∧
    matrix_is_on (run .INIT m [c, 0xF0, c]).2 (ROW c) (COL c) = false := by
  have hwfP : wf (pseudo_break_step ⟨m, false⟩).matrix :=
    @wf_pseudo ⟨m, false⟩ hwf
  have hrow : ROW c < (pseudo_break_step ⟨m, false⟩).matrix.length := by
    rw [hwfP.1]
    have := ROW_lt_16 hc
    unfold MATRIX_ROWS
    omega
  have e1 : matrix_scan .INIT m c false =
      ⟨.INIT, (matrix_make (pseudo_break_step ⟨m, false⟩) c).matrix,
        (matrix_make (pseudo_break_step ⟨m, false⟩) c).is_modified, 0⟩ := by
    rw [scan_false, dispatch_INIT_plain hc h0]
  have hp1 : matrix_is_on
      (matrix_make (pseudo_break_step ⟨m, false⟩) c).matrix
      (ROW PAUSE) (COL PAUSE) = false := by
    rw [is_on_make_of_ne]
    · exact pseudo_pause_off hwf.1 false
    · left
      have := ROW_lt_16 hc
      rw [ROW_PAUSE_eq]
      omega
  have hon1 : matrix_is_on
      (matrix_make (pseudo_break_step ⟨m, false⟩) c).matrix
      (ROW c) (COL c) = true :=
    is_on_make_self (pseudo_break_step ⟨m, false⟩) c hrow
  have e2 : matrix_scan .INIT
      (matrix_make (pseudo_break_step ⟨m, false⟩) c).matrix 0xF0 false =
      ⟨.F0, (matrix_make (pseudo_break_step ⟨m, false⟩) c).matrix,
        false, 0⟩ := by
    rw [scan_false, pseudo_of_off hp1, dispatch_INIT_F0]
  have e3 : matrix_scan .F0
      (matrix_make (pseudo_break_step ⟨m, false⟩) c).matrix c false =
      ⟨.INIT,
        (matrix_break
          ⟨(matrix_make (pseudo_break_step ⟨m, false⟩) c).matrix, false⟩
          c).matrix,
        (matrix_break
          ⟨(matrix_make (pseudo_break_step ⟨m, false⟩) c).matrix, false⟩
          c).is_modified, 0⟩ := by
    rw [scan_false, pseudo_of_off hp1, dispatch_F0_plain hc]
  have hoff3 : matrix_is_on
      (matrix_break
        ⟨(matrix_make (pseudo_break_step ⟨m, false⟩) c).matrix, false⟩
        c).matrix (ROW c) (COL c) = false := by
    refine is_on_break_self _ c ?_
    show ROW c < (matrix_make (pseudo_break_step ⟨m, false⟩) c).matrix.length
    rw [make_matrix_length]
    exact hrow
  refine ⟨?_, ?_, ?_, ?_, ?_⟩
  · simp only [run_cons, run_nil, e1]
  · simp only [run_cons, run_nil, e1]
    exact hon1
  · simp only [run_cons, run_nil, e1, e2]
  · simp only [run_cons, run_nil, e1, e2, e3]
  · simp only [run_cons, run_nil, e1, e2, e3]
    exact hoff3

theorem C4_witness :
    wf (List.replicate 32 0) ∧
    ((run .INIT (List.replicate 32 0) [0x1C]).1 = .INIT ∧
     matrix_is_on (run .INIT (List.replicate 32 0) [0x1C]).2 (ROW 0x1C)
       (COL 0x1C) = true ∧
     (run .INIT (List.replicate 32 0) [0x1C, 0xF0]).1 = .F0 ∧
     (run .INIT (List.replicate 32 0) [0x1C, 0xF0, 0x1C]).1 = .INIT ∧
     matrix_is_on (run .INIT (List.replicate 32 0) [0x1C, 0xF0, 0x1C]).2
       (ROW 0x1C) (COL 0x1C) = false) :=
  ⟨by decide,
    C4_plain_make_break (List.replicate 32 0) 0x1C (by decide) (by decide)
      (by decide)⟩

theorem or_128_eq {c : Nat} (h : c < 128) : c ||| 128 = c + 128 := by
  have key : ∀ x, x < 128 → x ||| 128 = x + 128 := by decide
  exact key c h

/-- Claim C5 (confirmed): `0xE0` then `c` (for `c < 0x80` outside
`{0x12, 0x59, 0x7E}`) turns on the extended coordinate of `c|0x80`, which
lies in a different row than the plain coordinate of `c`; `0xE0 0xF0 c`
turns it off again. -/
theorem C5_extended_make_break (m : List Nat) (c : Nat) (hwf : wf m)
    (hc : c < 0x80) (h12 : c ≠ 0x12) (h59 : c ≠ 0x59) (h7E : c ≠ 0x7E) :
    (run .INIT m [0xE0, c]).1 = .INIT ∧
    matrix_is_on (run .INIT m [0xE0, c]).2 (ROW (c ||| 0x80))
      (COL (c ||| 0x80)) = true ∧
    ROW (c ||| 0x80) ≠ ROW c ∧
    (run .INIT m [0xE0, c, 0xE0, 0xF0, c]).1 = .INIT ∧
    matrix_is_on (run .INIT m [0xE0, c, 0xE0, 0xF0, c]).2 (ROW (c ||| 0x80))
      (COL (c ||| 0x80)) = false := by
  have hadd : c ||| 0x80 = c + 0x80 := or_128_eq hc
  have hrowext : ROW (c ||| 0x80) < MATRIX_ROWS :=
    ROW_lt_rows (by omega)
  have hrowext16 : 16 ≤ ROW (c ||| 0x80) := by
    have hdiv : (c ||| 0x80) >>> 3 = (c ||| 0x80) / 8 :=
      Nat.shiftRight_eq_div_pow _ 3
    unfold ROW
    omega
  have hextne : c ||| 0x80 ≠ PAUSE := by
    unfold PAUSE
    omega
  have hwfP : wf (pseudo_break_step ⟨m, false⟩).matrix :=
    @wf_pseudo ⟨m, false⟩ hwf
  have hpP : matrix_is_on (pseudo_break_step ⟨m, false⟩).matrix (ROW PAUSE)
      (COL PAUSE) = false := pseudo_pause_off hwf.1 false
  have e1 : matrix_scan .INIT m 0xE0 false =
      ⟨.E0, (pseudo_break_step ⟨m, false⟩).matrix,
        (pseudo_break_step ⟨m, false⟩).is_modified, 0⟩ := by
    rw [scan_false, dispatch_INIT_E0]
  have e2 : matrix_scan .E0 (pseudo_break_step ⟨m, false⟩).matrix c false =
      ⟨.INIT,
        (matrix_make ⟨(pseudo_break_step ⟨m, false⟩).matrix, false⟩
          (c ||| 0x80)).matrix,
        (matrix_make ⟨(pseudo_break_step ⟨m, false⟩).matrix, false⟩
          (c ||| 0x80)).is_modified, 0⟩ := by
    rw [scan_false, pseudo_of_off hpP, dispatch_E0_plain hc h12 h59 h7E]
  have hon2 : matrix_is_on
      (matrix_make ⟨(pseudo_break_step ⟨m, false⟩).matrix, false⟩
        (c ||| 0x80)).matrix (ROW (c ||| 0x80)) (COL (c ||| 0x80)) = true := by
    refine is_on_make_self _ _ ?_
    show ROW (c ||| 0x80) < (pseudo_break_step ⟨m, false⟩).matrix.length
    rw [hwfP.1]
    exact hrowext
  have hp2 : matrix_is_on
      (matrix_make ⟨(pseudo_break_step ⟨m, false⟩).matrix, false⟩
        (c ||| 0x80)).matrix (ROW PAUSE) (COL PAUSE) = false := by
    rw [is_on_make_of_ne _ _ _ _ (coord_ne_pause hextne)]
    exact hpP
  have e3 : matrix_scan .INIT
      (matrix_make ⟨(pseudo_break_step ⟨m, false⟩).matrix, false⟩
        (c ||| 0x80)).matrix 0xE0 false =
      ⟨.E0,
        (matrix_make ⟨(pseudo_break_step ⟨m, false⟩).matrix, false⟩
          (c ||| 0x80)).matrix, false, 0⟩ := by
    rw [scan_false, pseudo_of_off hp2, dispatch_INIT_E0]
  have e4 : matrix_scan .E0
      (matrix_make ⟨(pseudo_break_step ⟨m, false⟩).matrix, false⟩
        (c ||| 0x80)).matrix 0xF0 false =
      ⟨.E0_F0,
        (matrix_make ⟨(pseudo_break_step ⟨m, false⟩).matrix, false⟩
          (c ||| 0x80)).matrix, false, 0⟩ := by
    rw [scan_false, pseudo_of_off hp2, dispatch_E0_0xF0]
  have e5 : matrix_scan .E0_F0
      (matrix_make ⟨(pseudo_break_step ⟨m, false⟩).matrix, false⟩
        (c ||| 0x80)).matrix c false =
      ⟨.INIT,
        (matrix_break
          ⟨(matrix_make ⟨(pseudo_break_step ⟨m, false⟩).matrix, false⟩
            (c ||| 0x80)).matrix, false⟩ (c ||| 0x80)).matrix,
        (matrix_break
          ⟨(matrix_make ⟨(pseudo_break_step ⟨m, false⟩).matrix, false⟩
            (c ||| 0x80)).matrix, false⟩ (c ||| 0x80)).is_modified, 0⟩ := by
    rw [scan_false, pseudo_of_off hp2, dispatch_E0_F0_plain hc h12 h59]
  have hoff5 : matrix_is_on
      (matrix_break
        ⟨(matrix_make ⟨(pseudo_break_step ⟨m, false⟩).matrix, false⟩
          (c ||| 0x80)).matrix, false⟩ (c ||| 0x80)).matrix
      (ROW (c ||| 0x80)) (COL (c ||| 0x80)) = false := by
    refine is_on_break_self _ _ ?_
    show ROW (c ||| 0x80) <
      (matrix_make ⟨(pseudo_break_step ⟨m, false⟩).matrix, false⟩
        (c ||| 0x80)).matrix.length
    rw [make_matrix_length]
    show ROW (c ||| 0x80) < (pseudo_break_step ⟨m, false⟩).matrix.length
    rw [hwfP.1]
    exact hrowext
  refine ⟨?_, ?_, ?_, ?_, ?_⟩
  · simp only [run_cons, run_nil, e1, e2]
  · simp only [run_cons, run_nil, e1, e2]
    exact hon2
  · have := ROW_lt_16 hc
    omega
  · simp only [run_cons, run_nil, e1, e2, e3, e4, e5]
  · simp only [run_cons, run_nil, e1, e2, e3, e4, e5]
    exact hoff5

theorem C5_witness :
    wf (List.replicate 32 0) ∧
    ((run .INIT (List.replicate 32 0) [0xE0, 0x75]).1 = .INIT ∧
     matrix_is_on (run .INIT (List.replicate 32 0) [0xE0, 0x75]).2
       (ROW (0x75 ||| 0x80)) (COL (0x75 ||| 0x80)) = true ∧
     ROW (0x75 ||| 0x80) ≠ ROW 0x75 ∧
     (run .INIT (List.replicate 32 0) [0xE0, 0x75, 0xE0, 0xF0, 0x75]).1
       = .INIT ∧
     matrix_is_on
       (run .INIT (List.replicate 32 0) [0xE0, 0x75, 0xE0, 0xF0, 0x75]).2
       (ROW (0x75 ||| 0x80)) (COL (0x75 ||| 0x80)) = false) :=
  ⟨by decide,
    C5_extended_make_break (List.replicate 32 0) 0x75 (by decide) (by decide)
      (by decide) (by decide) (by decide)⟩

/-- Claim C10 (confirmed): `0xE0 0xF0 0x7E` from idle is an ordinary
extended break of code `0x7E`, i.e. a break at coordinate
`0x7E|0x80 = 0xFE`, which is exactly the Pause position — so the sequence
leaves the Pause key released — while `0x7E` directly after `0xE0` merely
dispatches into the control-modified Pause chain without touching the
matrix. -/
theorem C10_extended_break_is_pause (m : List Nat) (ms : MState)
    (hwf : wf m) :
    dispatch .E0_F0 0x7E ms = (.INIT, matrix_break ms PAUSE, 0) ∧
    dispatch .E0 0x7E ms = (.E0_7E, ms, 0) ∧
    (0x7E ||| 0x80 : Nat) = PAUSE ∧
    (run .INIT m [0xE0, 0xF0, 0x7E]).1 = .INIT ∧
    matrix_is_on (run .INIT m [0xE0, 0xF0, 0x7E]).2 (ROW PAUSE) (COL PAUSE)
      = false := by
  have epause : (0x7E ||| 0x80 : Nat) = PAUSE := by decide
  have hwfP : wf (pseudo_break_step ⟨m, false⟩).matrix :=
    @wf_pseudo ⟨m, false⟩ hwf
  have hpP : matrix_is_on (pseudo_break_step ⟨m, false⟩).matrix (ROW PAUSE)
      (COL PAUSE) = false := pseudo_pause_off hwf.1 false
  have e1 : matrix_scan .INIT m 0xE0 false =
      ⟨.E0, (pseudo_break_step ⟨m, false⟩).matrix,
        (pseudo_break_step ⟨m, false⟩).is_modified, 0⟩ := by
    rw [scan_false, dispatch_INIT_E0]
  have e2 : matrix_scan .E0 (pseudo_break_step ⟨m, false⟩).matrix 0xF0
      false =
      ⟨.E0_F0, (pseudo_break_step ⟨m, false⟩).matrix, false, 0⟩ := by
    rw [scan_false, pseudo_of_off hpP, dispatch_E0_0xF0]
  have e3 : matrix_scan .E0_F0 (pseudo_break_step ⟨m, false⟩).matrix 0x7E
      false =
      ⟨.INIT,
        (matrix_break ⟨(pseudo_break_step ⟨m, false⟩).matrix, false⟩
          PAUSE).matrix,
        (matrix_break ⟨(pseudo_break_step ⟨m, false⟩).matrix, false⟩
          PAUSE).is_modified, 0⟩ := by
    rw [scan_false, pseudo_of_off hpP,
      dispatch_E0_F0_plain (by decide) (by decide) (by decide), epause]
  have hoff : matrix_is_on
      (matrix_break ⟨(pseudo_break_step ⟨m, false⟩).matrix, false⟩
        PAUSE).matrix (ROW PAUSE) (COL PAUSE) = false := by
    refine is_on_break_self _ _ ?_
    show ROW PAUSE < (pseudo_break_step ⟨m, false⟩).matrix.length
    rw [hwfP.1, ROW_PAUSE_eq]
    decide
  refine ⟨?_, rfl, epause, ?_, ?_⟩
  · rw [dispatch_E0_F0_plain (by decide) (by decide) (by decide), epause]
  · simp only [run_cons, run_nil, e1, e2, e3]
  · simp only [run_cons, run_nil, e1, e2, e3]
    exact hoff

theorem C10_witness :
    wf (List.replicate 32 255) ∧
    (dispatch .E0_F0 0x7E ⟨List.replicate 32 255, false⟩
       = (.INIT, matrix_break ⟨List.replicate 32 255, false⟩ PAUSE, 0) ∧
     dispatch .E0 0x7E ⟨List.replicate 32 255, false⟩
       = (.E0_7E, ⟨List.replicate 32 255, false⟩, 0) ∧
     (0x7E ||| 0x80 : Nat) = PAUSE ∧
     (run .INIT (List.replicate 32 255) [0xE0, 0xF0, 0x7E]).1 = .INIT ∧
     matrix_is_on (run .INIT (List.replicate 32 255) [0xE0, 0xF0, 0x7E]).2
       (ROW PAUSE) (COL PAUSE) = false) :=
  ⟨by decide,
    C10_extended_break_is_pause (List.replicate 32 255)
      ⟨List.replicate 32 255, false⟩ (by decide)⟩

theorem C7_witness :
    wf (List.replicate 32 3) ∧
    (matrix_key_count (List.replicate 32 3) =
      ((Finset.range MATRIX_ROWS ×ˢ Finset.range 8).filter
        (fun p => matrix_is_on (List.replicate 32 3) p.1 p.2 = true)).card ∧
     matrix_key_count (matrix_clear ⟨List.replicate 32 3, false⟩).matrix
       = 0) :=
  ⟨by decide, C7_key_count (List.replicate 32 3) (by decide)⟩

end PS2
